import Mathlib

/-!
Shallow embedding of the sync/reconciliation core of the Notion-BI dashboard
repository (TypeScript), together with theorems settling the specification
claims.  The embedded functions mirror the source files:

* `extractProperty`, `fetchAllPages`           — src/lib/notion.ts
* `matchTimeDoctorUsers`, `fetchTimeDoctorWorklogs`,
  `syncTimeDoctorWorklogs` (fetch phase)       — Time Doctor service
* `syncProjects` (accounting + finalization), `recordStatusHistory`
                                               — extractor service
* `calculateDaysLateMetrics` (per-card logic)  — metrics service

JavaScript dynamic values are modelled with `Option`-typed record fields;
JS truthiness for strings is `s ≠ ""`, for numbers `q ≠ 0`; thrown
exceptions become `Except String`; `Date` values are millisecond
timestamps (`Int`).
-/

namespace SyncBI

/-- Whether `pat` occurs at the very start of `s` (on character lists). -/
def charsStartWith : List Char → List Char → Bool
  | [], _ => true
  | _ :: _, [] => false
  | a :: as, b :: bs => a = b && charsStartWith as bs

/-- Whether `pat` occurs somewhere in `s` (on character lists). -/
def charsHaveSub (pat : List Char) : List Char → Bool
  | [] => charsStartWith pat []
  | b :: bs => charsStartWith pat (b :: bs) || charsHaveSub pat bs

/-- JS `String.prototype.includes`: `pat` occurs as a substring of `s`. -/
def strHasSub (pat s : String) : Bool :=
  charsHaveSub pat.data s.data

/-- ASCII lower-casing of one character (JS `toLowerCase` on the ASCII
range the identifiers involved use). -/
def charLower (c : Char) : Char :=
  if 'A' ≤ c ∧ c ≤ 'Z' then Char.ofNat (c.toNat + 32) else c

/-- JS `String.prototype.toLowerCase`. -/
def jsToLower (s : String) : String := ⟨s.data.map charLower⟩

/-- ASCII whitespace recognizer (JS `trim` strips these). -/
def isSpaceChar (c : Char) : Bool :=
  c = ' ' || c = '\t' || c = '\n' || c = '\r'

/-- JS `String.prototype.trim`: strip leading and trailing whitespace. -/
def jsTrim (s : String) : String :=
  ⟨((s.data.dropWhile isSpaceChar).reverse.dropWhile isSpaceChar).reverse⟩

/-- JS truthiness of an optional string: present and nonempty. -/
def truthyStr : Option String → Bool
  | some s => s ≠ ""
  | none => false

/-! ## PropertyExtractor (`extractProperty`, src/lib/notion.ts lines 378-515) -/

/-- One segment of a Notion title / rich-text list; `plain_text` may be
missing (source writes `segment.plain_text || ''`). -/
structure TextSegment where
  plain_text : Option String
deriving DecidableEq, Repr

/-- The structured value of a Notion `date` property. -/
structure DateVal where
  start : Option String
  end_ : Option String
  time_zone : Option String
deriving DecidableEq, Repr

/-- A multi-select option (only its `name` is read). -/
structure SelectOption where
  name : String
deriving DecidableEq, Repr

/-- A people / user reference (only its `id` is read). -/
structure PersonRef where
  id : Option String
deriving DecidableEq, Repr

/-- A relation reference (only its `id` is read). -/
structure RelationRef where
  id : Option String
deriving DecidableEq, Repr

/-- A file attachment: `file.url` for uploaded, `external.url` for linked. -/
structure FileRef where
  file_url : Option String
  external_url : Option String
deriving DecidableEq, Repr

/-- The value slot of a `formula` property: the `type` tag names which of
the typed slots is populated. -/
structure FormulaVal where
  type : String
  number : Option ℚ
  string : Option String
  boolean : Option Bool
  date : Option DateVal
deriving DecidableEq, Repr

/-- One element of a rollup `array`.  Mirrors the shapes the source
distinguishes: a tag (`type`), an `object` marker, a direct `id`, a
`people` list and a `relation` list. -/
structure RollupItem where
  type : Option String
  object : Option String
  id : Option String
  people : Option (List PersonRef)
  relation : Option (List RelationRef)
deriving DecidableEq, Repr

/-- The value slot of a `rollup` property. -/
structure RollupVal where
  type : String
  number : Option ℚ
  array : Option (List RollupItem)
deriving DecidableEq, Repr

/-- A Notion property object.  In the source this is a dynamic bag; each
shape the extractor dereferences is an optional field here (absent field =
JS `undefined`). -/
structure NotionProperty where
  title : Option (List TextSegment) := none
  rich_text : Option (List TextSegment) := none
  select : Option SelectOption := none
  date : Option DateVal := none
  people : Option (List PersonRef) := none
  relation : Option (List RelationRef) := none
  number : Option ℚ := none
  checkbox : Option Bool := none
  formula : Option FormulaVal := none
  rollup : Option RollupVal := none
  url : Option String := none
  email : Option String := none
  phone_number : Option String := none
  multi_select : Option (List SelectOption) := none
  files : Option (List FileRef) := none
  created_time : Option Int := none
  last_edited_time : Option Int := none
deriving DecidableEq, Repr

/-- A Notion page: its property bag, keyed by property id or name
(JS object; keys unique, looked up by exact key). -/
structure NotionPage where
  properties : List (String × NotionProperty)
deriving DecidableEq, Repr

/-- Result of `extractProperty`: the normalized value, a tagged union over
everything the source's switch can return.  `nullV` covers JS
`null`/`undefined`. -/
inductive ExtractedValue where
  | nullV
  | strV (s : String)
  | numV (q : ℚ)
  | boolV (b : Bool)
  | dateObj (d : DateVal)
  | listV (xs : List String)
  | timeV (t : Int)
  | rollupRaw (xs : List RollupItem)
deriving DecidableEq, Repr

/-- Concatenation of text segments: `segments.map(s => s.plain_text || '').join('')`. -/
def joinSegments (segs : List TextSegment) : String :=
  String.join (segs.map (fun s => s.plain_text.getD ""))

/-- Extract ids from a people list: `people.map(p => p.id)`; the source
then keeps the list as returned (ids may be absent in rollup variants,
where an explicit truthiness filter is applied). -/
def peopleIds (ps : List PersonRef) : List String :=
  ps.filterMap (fun p => p.id)

/-- Extract ids from a relation list. -/
def relationIds (rs : List RelationRef) : List String :=
  rs.filterMap (fun r => r.id)

/-- Truthiness filter the rollup branches apply to extracted ids. -/
def truthyIds (xs : List (Option String)) : List String :=
  xs.filterMap (fun x => x.bind (fun s => if s = "" then none else some s))

/-- Rollup `array` handling (source lines 434-493): inspect the first
element's shape to decide how to flatten. -/
def extractRollupArray (array : List RollupItem) : ExtractedValue :=
  match array.head? with
  | none => .rollupRaw array
  | some firstItem =>
    -- Case 1: items tagged `people` carrying a people array
    if firstItem.type = some "people" ∧ firstItem.people.isSome then
      .listV (array.flatMap (fun item =>
        match item.people with
        | some ps => truthyIds (ps.map (·.id))
        | none => []))
    -- Case 2: items tagged `relation` carrying a relation array
    else if firstItem.type = some "relation" ∧ firstItem.relation.isSome then
      .listV (array.flatMap (fun item =>
        match item.relation with
        | some rs => truthyIds (rs.map (·.id))
        | none => []))
    -- Case 3: items are user objects directly
    else if firstItem.object = some "user" ∨ (firstItem.id.isSome ∧ firstItem.type = none) then
      .listV (truthyIds (array.map (·.id)))
    -- Case 4: items are relation objects directly
    else if firstItem.id.isSome ∧ firstItem.object = none then
      .listV (truthyIds (array.map (·.id)))
    -- Case 5: items have a nested `people` slot
    else if firstItem.people.isSome then
      .listV (array.flatMap (fun item =>
        match item.people with
        | some ps => truthyIds (ps.map (·.id))
        | none => []))
    else
      .rollupRaw array

/-- Embedding of `extractProperty` (src/lib/notion.ts lines 378-515).
Looks the property up by id, falls back to the name, returns `nullV` when
both miss, then switches on the declared type tag. -/
def extractProperty (page : NotionPage) (propertyId : String)
    (propertyType : String) (propertyName : Option String) : ExtractedValue :=
  let prop0 := page.properties.lookup propertyId
  let prop : Option NotionProperty :=
    match prop0 with
    | some p => some p
    | none => propertyName.bind (fun nm => page.properties.lookup nm)
  match prop with
  | none => .nullV
  | some p =>
    match propertyType with
    | "title" =>
      match p.title with
      | some segs => if segs.length > 0 then .strV (joinSegments segs) else .strV ""
      | none => .strV ""
    | "rich_text" =>
      match p.rich_text with
      | some segs => if segs.length > 0 then .strV (joinSegments segs) else .strV ""
      | none => .strV ""
    | "select" =>
      match p.select with
      | some o => if o.name = "" then .nullV else .strV o.name
      | none => .nullV
    | "date" =>
      match p.date with
      | some d => .dateObj d
      | none => .nullV
    | "people" =>
      match p.people with
      | some ps => .listV (peopleIds ps)
      | none => .listV []
    | "relation" =>
      match p.relation with
      | some rs => .listV (relationIds rs)
      | none => .listV []
    | "number" =>
      match p.number with
      | some n => .numV n
      | none => .nullV
    | "checkbox" =>
      match p.checkbox with
      | some b => .boolV b
      | none => .nullV
    | "formula" =>
      match p.formula with
      | some f =>
        if f.type = "number" then (match f.number with | some n => .numV n | none => .nullV)
        else if f.type = "string" then (match f.string with | some s => .strV s | none => .nullV)
        else if f.type = "boolean" then (match f.boolean with | some b => .boolV b | none => .nullV)
        else if f.type = "date" then (match f.date with | some d => .dateObj d | none => .nullV)
        else .nullV
      | none => .nullV
    | "rollup" =>
      match p.rollup with
      | some r =>
        if r.type = "number" then (match r.number with | some n => .numV n | none => .nullV)
        else if r.type = "array" then extractRollupArray (r.array.getD [])
        else .nullV
      | none => .nullV
    | "url" =>
      match p.url with
      | some u => .strV u
      | none => .nullV
    | "email" =>
      match p.email with
      | some e => .strV e
      | none => .nullV
    | "phone_number" =>
      match p.phone_number with
      | some ph => .strV ph
      | none => .nullV
    | "multi_select" =>
      match p.multi_select with
      | some opts => .listV (opts.map (·.name))
      | none => .listV []
    | "files" =>
      match p.files with
      | some fs =>
        .listV (fs.filterMap (fun f =>
          match f.file_url with
          | some u => some u
          | none => f.external_url))
      | none => .listV []
    | "created_time" =>
      match p.created_time with
      | some t => .timeV t
      | none => .nullV
    | "last_edited_time" =>
      match p.last_edited_time with
      | some t => .timeV t
      | none => .nullV
    | _ => .nullV

/-! ## PaginatedFetcher (`fetchAllPages`, src/lib/notion.ts lines 328-376) -/

/-- One page response of the Notion query endpoint. -/
structure QueryResponse (α : Type) where
  results : List α
  has_more : Bool
  next_cursor : Option String
deriving Repr

/-- JS truthiness of the optional numeric `limit` parameter: set and nonzero. -/
def limTruthy : Option Nat → Bool
  | some l => l ≠ 0
  | none => false

/-- Loop body of `fetchAllPages`, parameterized by the query endpoint
(cursor and page size to one page response) and driven by fuel (the
source's do/while; fuel bounds the number of page requests).  Alongside
the accumulated pages it records, per request, the number of items
already accumulated and the page size used. -/
def fetchAllPagesGo (query : Option String → Nat → QueryResponse α)
    (limit : Option Nat) :
    Nat → Option String → List α → List (Nat × Nat) → List α × List (Nat × Nat)
  | 0, _, acc, reqs => (acc, reqs)
  | fuel + 1, cursor, acc, reqs =>
    -- const remainingLimit = limit ? limit - allPages.length : undefined
    let remainingLimit : Option Nat :=
      if limTruthy limit then some (limit.getD 0 - acc.length) else none
    -- const pageSize = remainingLimit && remainingLimit < 100 ? remainingLimit : 100
    let pageSize : Nat :=
      match remainingLimit with
      | some r => if r ≠ 0 ∧ r < 100 then r else 100
      | none => 100
    let response := query cursor pageSize
    -- if (limit && remainingLimit) push slice(0, remainingLimit) else push all
    let acc' : List α :=
      match remainingLimit with
      | some r => if limTruthy limit ∧ r ≠ 0
                  then acc ++ response.results.take r
                  else acc ++ response.results
      | none => acc ++ response.results
    -- cursor = response.has_more && response.next_cursor ? response.next_cursor : undefined
    let cursor' : Option String :=
      if response.has_more ∧ truthyStr response.next_cursor
      then response.next_cursor else none
    let reqs' := reqs ++ [(acc.length, pageSize)]
    -- if (limit && allPages.length >= limit) break
    if limTruthy limit ∧ limit.getD 0 ≤ acc'.length then (acc', reqs')
    else
      -- while (cursor && (!limit || allPages.length < limit))
      match cursor' with
      | none => (acc', reqs')
      | some c =>
        if limTruthy limit ∧ ¬ (acc'.length < limit.getD 0) then (acc', reqs')
        else fetchAllPagesGo query limit fuel (some c) acc' reqs'

/-- Embedding of `fetchAllPages`: starts with no cursor and an empty
accumulator, returns the fetched items and the request trace. -/
def fetchAllPages (query : Option String → Nat → QueryResponse α)
    (limit : Option Nat) (fuel : Nat) : List α × List (Nat × Nat) :=
  fetchAllPagesGo query limit fuel none [] []

/-! ## EntityMatcher (`matchTimeDoctorUsers`, Time Doctor service lines 399-433) -/

/-- Local team member, as read from the `team_members` collection. -/
structure TeamMember where
  notion_id : Option String
  name : String
  email : Option String
deriving DecidableEq, Repr

/-- Time Doctor user candidate from the external API. -/
structure TDUser where
  id : String
  name : String
  email : Option String
deriving DecidableEq, Repr

/-- JS `Map.prototype.set`: replace in place if the key exists, else append. -/
def mapSet (m : List (String × β)) (k : String) (v : β) : List (String × β) :=
  if m.any (fun p => p.1 = k)
  then m.map (fun p => if p.1 = k then (k, v) else p)
  else m ++ [(k, v)]

/-- JS `Map.prototype.get`. -/
def mapGet (m : List (String × β)) (k : String) : Option β :=
  (m.find? (fun p => p.1 = k)).map (·.2)

/-- JS `Map.prototype.has`. -/
def mapHas (m : List (String × β)) (k : String) : Bool :=
  m.any (fun p => p.1 = k)

/-- Case-normalization used on both sides: `.toLowerCase().trim()`. -/
def normKey (s : String) : String := jsTrim (jsToLower s)

/-- Email index over the local side: `if (member.email) set(email norm, member)`. -/
def teamMemberByEmail (teamMembers : List TeamMember) : List (String × TeamMember) :=
  teamMembers.foldl (fun m mem =>
    match mem.email with
    | some e => if e ≠ "" then mapSet m (normKey e) mem else m
    | none => m) []

/-- Name index over the local side: `if (member.name) set(name norm, member)`. -/
def teamMemberByName (teamMembers : List TeamMember) : List (String × TeamMember) :=
  teamMembers.foldl (fun m mem =>
    if mem.name ≠ "" then mapSet m (normKey mem.name) mem else m) []

/-- The email attempt of the per-candidate body: when the candidate has a
truthy email whose normalized form hits the email index and the matched
member has a truthy `notion_id`, record the match. -/
def matchUserEmail (byEmail : List (String × TeamMember))
    (matchMap : List (String × String)) (u : TDUser) : List (String × String) :=
  match u.email with
  | some e =>
    if e ≠ "" then
      match mapGet byEmail (normKey e) with
      | some mem =>
        match mem.notion_id with
        | some nid => if nid ≠ "" then mapSet matchMap u.id nid else matchMap
        | none => matchMap
      | none => matchMap
    else matchMap
  | none => matchMap

/-- The per-candidate body of `matchTimeDoctorUsers`: the email attempt
first; the name index is consulted only when the candidate still has no
entry in the match map. -/
def matchOneUser (byEmail byName : List (String × TeamMember))
    (matchMap : List (String × String)) (u : TDUser) : List (String × String) :=
  let m1 := matchUserEmail byEmail matchMap u
  if ¬ mapHas m1 u.id ∧ u.name ≠ "" then
    match mapGet byName (normKey u.name) with
    | some mem =>
      match mem.notion_id with
      | some nid => if nid ≠ "" then mapSet m1 u.id nid else m1
      | none => m1
    | none => m1
  else m1

/-- Embedding of `matchTimeDoctorUsers`: builds the two indices over the
local side, then folds the per-candidate body over the candidates. -/
def matchTimeDoctorUsers (tdUsers : List TDUser) (teamMembers : List TeamMember) :
    List (String × String) :=
  tdUsers.foldl
    (matchOneUser (teamMemberByEmail teamMembers) (teamMemberByName teamMembers))
    []

/-! ## StatusHistoryRecorder (`recordStatusHistory`, extractor service lines 1206-1234) -/

/-- The card fields `recordStatusHistory` reads. -/
structure CardLite where
  notion_id : String
  status : Option String
  updated_at : Int
deriving DecidableEq, Repr

/-- One immutable status-history record. -/
structure HistoryRec where
  card_id : String
  status : String
  changed_at : Int
  detected_at : Int
  source : String
deriving DecidableEq, Repr

/-- The most recent history record for an entity:
`findOne({card_id}, {sort: {changed_at: -1}})`.  On equal timestamps the
earlier-inserted record is kept (the claims below only use strictly
increasing timestamps, where every sort order agrees). -/
def latestHistory (hist : List HistoryRec) (cardId : String) : Option HistoryRec :=
  (hist.filter (fun h => h.card_id = cardId)).foldl
    (fun acc h =>
      match acc with
      | none => some h
      | some a => if a.changed_at < h.changed_at then some h else some a)
    none

/-- JS `card.status || 'Unknown'`: absent or empty status becomes `"Unknown"`. -/
def statusOrUnknown : Option String → String
  | some s => if s = "" then "Unknown" else s
  | none => "Unknown"

/-- Embedding of `recordStatusHistory` on an explicit history collection:
inserts a new record iff no prior record exists or the latest record's
status differs from the card's status (`!lastHistory || lastHistory.status
!== card.status`; the strict comparison makes an absent status differ from
every stored string).  `card_id` is the card's stable id (the source
resolves the Mongo `_id` for the same card, falling back to `notion_id`). -/
def recordStatusHistory (hist : List HistoryRec) (card : CardLite) (now : Int) :
    List HistoryRec :=
  match latestHistory hist card.notion_id with
  | none =>
    hist ++ [⟨card.notion_id, statusOrUnknown card.status, card.updated_at,
      now, "notion"⟩]
  | some lh =>
    if card.status ≠ some lh.status then
      hist ++ [⟨card.notion_id, statusOrUnknown card.status, card.updated_at,
        now, "notion"⟩]
    else hist

/-- Applies a sequence of upserts of the same card (status and update
timestamp per step; the detection time reuses the step timestamp) to a
history collection. -/
def upsertStatusSeq (cardId : String) (hist : List HistoryRec)
    (steps : List (Option String × Int)) : List HistoryRec :=
  steps.foldl (fun h st => recordStatusHistory h ⟨cardId, st.1, st.2⟩ st.2) hist

/-! ## SyncOrchestrator (`syncProjects`, extractor service lines 221-370) -/

/-- The counters of a `SyncLog` that the processing loop mutates. -/
structure SyncCounters where
  processed : Nat
  failed : Nat
  error_count : Nat
deriving DecidableEq, Repr

/-- Initial counters of a fresh `SyncLog`. -/
def initCounters : SyncCounters := ⟨0, 0, 0⟩

/-- One page's processing (transform + upsert + history recording),
abstracted as a fallible step: success increments `records_processed`,
any thrown error increments `records_failed` and `error_count` and the
loop continues. -/
def stepCounters (step : α → Except String Unit) (c : SyncCounters) (p : α) :
    SyncCounters :=
  match step p with
  | .ok _ => { c with processed := c.processed + 1 }
  | .error _ => { c with failed := c.failed + 1, error_count := c.error_count + 1 }

/-- Whether one page's processing fails (throws). -/
def stepFails (step : α → Except String Unit) (p : α) : Bool :=
  match step p with
  | .ok _ => false
  | .error _ => true

/-- Whether a fallible computation succeeded. -/
def exceptOk (r : Except ε α) : Bool :=
  match r with
  | .ok _ => true
  | .error _ => false

/-- Splits a list into consecutive chunks of size `n`
(`filteredPages.slice(i, i + BATCH_SIZE)` per outer iteration); driven by
fuel bounded by the list length so that it computes by reduction. -/
def listChunksGo (n : Nat) : Nat → List α → List (List α)
  | 0, _ => []
  | _ + 1, [] => []
  | fuel + 1, x :: xs =>
    if n = 0 then [x :: xs]
    else (x :: xs).take n :: listChunksGo n fuel ((x :: xs).drop n)

/-- Splits a list into consecutive chunks of size `n`. -/
def listChunks (n : Nat) (l : List α) : List (List α) :=
  listChunksGo n l.length l

/-- The batched processing loop of `syncProjects` (lines 292-347): pages
are processed in batches of 50, sequentially inside each batch, each page
wrapped in isolated failure handling. -/
def processPages (pages : List α) (step : α → Except String Unit) : SyncCounters :=
  (listChunks 50 pages).foldl (fun c batch => batch.foldl (stepCounters step) c)
    initCounters

/-- Finalization status of the pass:
`records_failed > 0 ? 'partial' : 'success'`. -/
def finalStatus (c : SyncCounters) : String :=
  if c.failed > 0 then "partial" else "success"

/-- The finalized `SyncLog` fields decided by the pass. -/
structure SyncLogM where
  status : String
  records_processed : Nat
  records_failed : Nat
  error_count : Nat
  error_message : Option String
deriving DecidableEq, Repr

/-- Embedding of the whole `syncProjects` pass around its try/catch:
`fetch` abstracts `fetchAllPages` (which may throw), `step` one page's
processing, `insertLog` the `sync_logs.insertOne` write (which may
throw).  The try block processes the pages, finalizes the log and writes
it; the catch marks the log failed, writes it again and re-throws.  Both
log writes sit outside any inner handler, so their failures reach the
caller. -/
def syncProjectsRun (fetch : Except String (List α))
    (step : α → Except String Unit)
    (insertLog : SyncLogM → Except String Unit) : Except String SyncLogM :=
  match fetch with
  | .error e =>
    -- fetch threw before any processing: catch block with zero counters
    let failedLog : SyncLogM := ⟨"failed", 0, 0, 0, some e⟩
    (match insertLog failedLog with
     | .ok _ => .error e
     | .error e2 => .error e2)
  | .ok pages =>
    match insertLog ⟨finalStatus (processPages pages step),
        (processPages pages step).processed, (processPages pages step).failed,
        (processPages pages step).error_count, none⟩ with
    | .ok _ =>
      .ok ⟨finalStatus (processPages pages step),
        (processPages pages step).processed, (processPages pages step).failed,
        (processPages pages step).error_count, none⟩
    | .error e =>
      -- the finalization write threw inside the try: catch block runs,
      -- writes a failed log and re-throws
      (match insertLog ⟨"failed", (processPages pages step).processed,
          (processPages pages step).failed,
          (processPages pages step).error_count, some e⟩ with
       | .ok _ => .error e
       | .error e2 => .error e2)

/-! ## ChunkedRangeFetcher (`fetchTimeDoctorWorklogs` lines 104-394 and
`syncTimeDoctorWorklogs` lines 674-761 of the Time Doctor service) -/

/-- Milliseconds per day. -/
def dayMs : Int := 86400000

/-- Integer ceiling division for a positive divisor (`Math.ceil(a / b)`). -/
def ceilDivInt (a b : Int) : Int := (a + b - 1).fdiv b

/-- A raw worklog entry as it appears in the API payload; the camelCase
and snake_case alternatives the mapper coalesces are separate optional
slots.  Numeric strings carry their parsed value. -/
structure TDRawEntry where
  userId : Option String := none
  user_id : Option String := none
  user_obj_id : Option String := none
  projectId : Option String := none
  project_id : Option String := none
  project_obj_id : Option String := none
  time : Option ℚ := none
  totalSec : Option ℚ := none
  total_sec : Option ℚ := none
  total_time : Option ℚ := none
  start : Option String := none
  period_start : Option String := none
  dateStr : Option String := none
  created_at : Option String := none
  timestamp : Option String := none
  projectName : Option String := none
  project_name : Option String := none
  taskName : Option String := none
  task_name : Option String := none
  mode : Option String := none
  tracking_mode : Option String := none
deriving DecidableEq, Repr

/-- JS `a || b` over optional strings (empty string is falsy). -/
def orStr (a b : Option String) : Option String :=
  match a with
  | some s => if s = "" then b else some s
  | none => b

/-- JS `a || b || ... || 0` over optional numbers (0 is falsy). -/
def firstTruthyQ (xs : List (Option ℚ)) : ℚ :=
  match xs with
  | [] => 0
  | x :: rest =>
    match x with
    | some q => if q = 0 then firstTruthyQ rest else q
    | none => firstTruthyQ rest

/-- A mapped worklog (lines 305-342): canonical field per slot group. -/
structure MappedWorklog where
  userId : Option String
  projectId : Option String
  time : ℚ
  start : Option String
  projectName : Option String
  taskName : Option String
  mode : Option String
deriving DecidableEq, Repr

/-- The per-entry mapping (lines 305-342). -/
def mapWorklogEntry (e : TDRawEntry) : MappedWorklog :=
  { userId := orStr e.userId (orStr e.user_id e.user_obj_id)
    projectId := orStr e.projectId (orStr e.project_id e.project_obj_id)
    time := firstTruthyQ [e.time, e.totalSec, e.total_sec, e.total_time]
    start := orStr e.start (orStr e.period_start (orStr e.dateStr
      (orStr e.created_at e.timestamp)))
    projectName := orStr e.projectName (orStr e.project_name none)
    taskName := orStr e.taskName (orStr e.task_name none)
    mode := orStr e.mode (orStr e.tracking_mode none) }

/-- The validity filter (lines 345-381): user id and project id present
and nonblank after trim, time a positive number. -/
def validWorklog (w : MappedWorklog) : Bool :=
  (match w.userId with | some s => jsTrim s != "" | none => false)
  && (match w.projectId with | some s => jsTrim s != "" | none => false)
  && (w.time != 0) && decide (0 < w.time)

/-- The response-payload shapes the worklog fetch normalizes
(lines 162-303); each constructor is one recognized branch, JSON parsing
outcomes carried explicitly (`none` = parse failure, collapsed to an empty
list as the source's per-entry reparse also fails on the same text). -/
inductive TDPayload where
  | direct (entries : List TDRawEntry)
  | dataStr (parsed : Option (List TDRawEntry))
  | dataArr (entries : List TDRawEntry)
  | dataArrSingleStr (parsed : Option (List TDRawEntry))
  | dataArrayLikeItems (items : List (List TDRawEntry))
  | dataObjNumericKeys (entries : List TDRawEntry)
  | dataObjOther
  | resultsArr (entries : List TDRawEntry)
  | itemsArr (entries : List TDRawEntry)
  | entriesArr (entries : List TDRawEntry)
  | unknownShape
deriving DecidableEq, Repr

/-- Normalizes every recognized transport shape to one flat entry list. -/
def normalizeWorklogPayload : TDPayload → List TDRawEntry
  | .direct es => es
  | .dataStr parsed => parsed.getD []
  | .dataArr es => es
  | .dataArrSingleStr parsed => parsed.getD []
  | .dataArrayLikeItems items => items.flatten
  | .dataObjNumericKeys es => es
  | .dataObjOther => []
  | .resultsArr es => es
  | .itemsArr es => es
  | .entriesArr es => es
  | .unknownShape => []

/-- One worklog API response: HTTP status flag, in-band `error` field,
payload. -/
structure TDWorklogResponse where
  ok : Bool
  error : Option String
  payload : TDPayload
deriving DecidableEq, Repr

/-- The try-block body of `fetchTimeDoctorWorklogs` (lines 114-388): a
failed HTTP status throws; an in-band `error` field throws, marked as a
range error when the message contains "range too wide" or "mergeRange";
otherwise the payload is normalized, mapped, and filtered. -/
def fetchWorklogsAttempt (resp : TDWorklogResponse) :
    Except String (List MappedWorklog) :=
  if resp.ok = false then
    .error "Time Doctor API error: HTTP status"
  else
    match resp.error with
    | some msg =>
      if strHasSub "range too wide" msg ∨ strHasSub "mergeRange" msg then
        .error ("Time Doctor API range error: " ++ msg)
      else
        .error ("Time Doctor API error: " ++ msg)
    | none =>
      .ok (((normalizeWorklogPayload resp.payload).map mapWorklogEntry).filter
        validWorklog)

/-- Embedding of `fetchTimeDoctorWorklogs` (lines 104-394): the whole body
sits in one try whose catch (lines 389-393) returns an empty array, so
every error — including the range error the body itself constructs — is
swallowed and the function returns normally.  `api` maps a requested
(from, to) range to the response. -/
def fetchTimeDoctorWorklogs (api : Int → Int → TDWorklogResponse)
    (startDate endDate : Int) : List MappedWorklog :=
  match fetchWorklogsAttempt (api startDate endDate) with
  | .ok ws => ws
  | .error _ => []

/-- The chunked fetch loop of `syncTimeDoctorWorklogs` (lines 705-752):
one 7-day window per iteration, capped at the end date; the next window
starts one day after the previous window's end.  The source wraps the
window fetch in a try whose catch retries 3-day sub-windows on a range
error, but `fetchTimeDoctorWorklogs` never throws (its own catch returns
`[]` instead), so that handler is unreachable and the loop reduces to
appending each window's result. -/
def syncWorklogsChunkLoop (api : Int → Int → TDWorklogResponse) (endDate : Int) :
    Nat → Int → List MappedWorklog → List MappedWorklog
  | 0, _, acc => acc
  | n + 1, currentStart, acc =>
    let chunkEnd := currentStart + 7 * dayMs
    let chunkEndDate := if endDate < chunkEnd then endDate else chunkEnd
    let chunkWorklogs := fetchTimeDoctorWorklogs api currentStart chunkEndDate
    syncWorklogsChunkLoop api endDate n (chunkEndDate + dayMs) (acc ++ chunkWorklogs)

/-- The fetch phase of `syncTimeDoctorWorklogs`: splits the range into
`ceil(totalDays / 7)` windows and aggregates every window's entries. -/
def syncWorklogsFetchAll (api : Int → Int → TDWorklogResponse)
    (startDate endDate : Int) : List MappedWorklog :=
  let totalDays := ceilDivInt (endDate - startDate) dayMs
  let chunks := (ceilDivInt totalDays 7).toNat
  syncWorklogsChunkLoop api endDate chunks startDate []

/-- What the unreachable recovery handler (lines 722-738) would fetch for
one failed 7-day window: consecutive 3-day sub-windows, each capped at the
window end, each fetched independently. -/
def smallChunkLoop (api : Int → Int → TDWorklogResponse) (chunkEndDate : Int) :
    Nat → Int → List MappedWorklog → List MappedWorklog
  | 0, _, acc => acc
  | n + 1, smallStart, acc =>
    if smallStart < chunkEndDate then
      let smallEnd := smallStart + 3 * dayMs
      let finalEnd := if chunkEndDate < smallEnd then chunkEndDate else smallEnd
      let ws := fetchTimeDoctorWorklogs api smallStart finalEnd
      smallChunkLoop api chunkEndDate n (smallStart + 3 * dayMs) (acc ++ ws)
    else acc

/-! ## MetricsAggregator (`calculateDaysLateMetrics`, metrics service
lines 155-293; per-card logic at lines 187-236) -/

/-- The deadline source value `metadata.original_due_date`: either a
Notion date-range object (start / end ISO strings, modelled by their
parsed timestamps) or an already-parsed `Date`. -/
inductive DueDateVal where
  | rangeObj (start : Option Int) (end_ : Option Int)
  | dateObj (t : Int)
deriving DecidableEq, Repr

/-- The card-metadata fields the days-late computation reads (timestamps
in milliseconds). -/
structure CardMeta where
  developer_ids : Option (List String) := none
  developer : Option (List String) := none
  original_due_date : Option DueDateVal := none
  ready_for_client_date : Option Int := none
  done_date : Option Int := none
  deployment_date : Option Int := none
deriving DecidableEq, Repr

/-- First element of an optional id array when truthy (nonempty string). -/
def firstIdOf (l : Option (List String)) : Option String :=
  (l.bind List.head?).bind (fun s => if s = "" then none else some s)

/-- Primary developer: `developer_ids[0] || developer[0]` (lines 189-190). -/
def primaryDeveloper (m : CardMeta) : Option String :=
  match firstIdOf m.developer_ids with
  | some s => some s
  | none => firstIdOf m.developer

/-- Deadline resolution (lines 193-203): from the original due date only —
a range object's truthy `start`, else its truthy `end`, else the value
itself when it is already a `Date`. -/
def resolveDeadline (m : CardMeta) : Option Int :=
  match m.original_due_date with
  | none => none
  | some (.rangeObj st en) =>
    (match st with
     | some t => some t
     | none => en)
  | some (.dateObj t) => some t

/-- Completion-date resolution (lines 211-221): ready-for-client date,
else done date, else deployment date — first present wins. -/
def resolveCompletion (m : CardMeta) : Option Int :=
  match m.ready_for_client_date with
  | some t => some t
  | none =>
    match m.done_date with
    | some t => some t
    | none => m.deployment_date

/-- One card's contribution to the average-days-late aggregation
(loop body, lines 187-236): requires a primary developer, a resolvable
deadline and completion date, and completion strictly after the deadline;
the value is `Math.floor((completed - deadline) / dayMs)`. -/
def daysLateEntry (m : CardMeta) : Option (String × Int) :=
  match primaryDeveloper m with
  | none => none
  | some dev =>
    match resolveDeadline m with
    | none => none
    | some deadline =>
      match resolveCompletion m with
      | none => none
      | some completed =>
        if deadline < completed
        then some (dev, (completed - deadline).fdiv dayMs)
        else none

/-- The per-assignee days-late samples over a card collection. -/
def daysLateValues (cards : List CardMeta) (dev : String) : List Int :=
  (cards.filterMap daysLateEntry).filterMap
    (fun p => if p.1 = dev then some p.2 else none)

/-- Average days late for one assignee: mean of the samples, absent when
the assignee has none (lines 239-242 skip empty sample sets). -/
def avgDaysLate (cards : List CardMeta) (dev : String) : Option ℚ :=
  let vs := daysLateValues cards dev
  if vs.length = 0 then none
  else some ((vs.map (fun i => (i : ℚ))).sum / vs.length)

/-! ## Concrete fixtures used by witnesses and counterexamples -/

/-- A page holding a two-segment title property and a two-option
multi-select property. -/
def pageC7 : NotionPage :=
  ⟨[("tt", { title := some [⟨some "Hello "⟩, ⟨some "World"⟩] }),
    ("ms", { multi_select := some [⟨"A"⟩, ⟨"B"⟩] })]⟩

/-- A Time Doctor candidate whose email and name both match (different)
local members. -/
def tdUserC6 : TDUser := ⟨"td1", "bob", some "X@Y.com"⟩

/-- Local member matched by email. -/
def memberEmailC6 : TeamMember := ⟨some "n1", "alice", some "x@y.com"⟩

/-- Local member matched by name. -/
def memberNameC6 : TeamMember := ⟨some "n2", "bob", none⟩

/-- One valid raw worklog entry carrying a distinguishing user id tag. -/
def rawEntryTagged (tag : String) : TDRawEntry :=
  { userId := some tag, projectId := some tag, time := some 10 }

/-- A successful worklog response holding one tagged entry. -/
def okWorklogResp (tag : String) : TDWorklogResponse :=
  ⟨true, none, .direct [rawEntryTagged tag]⟩

/-- A response whose in-band error field reports a too-wide range. -/
def rangeErrResp : TDWorklogResponse := ⟨true, some "range too wide", .direct []⟩

/-- The C1 scenario server: every window succeeds with one entry tagged by
its start date, except the second 7-day window (days 8 to 15), which
reports the range error; its 3-day sub-windows would succeed. -/
def apiC1 (f t : Int) : TDWorklogResponse :=
  if f = 8 * dayMs ∧ t = 15 * dayMs then rangeErrResp
  else okWorklogResp (toString f)

/-- A query endpoint serving 25 items per page over three pages. -/
def srvC5 (c : Option String) (sz : Nat) : QueryResponse Nat :=
  match c with
  | none => ⟨List.range (min sz 25), true, some "c1"⟩
  | some "c1" => ⟨(List.range (min sz 25)).map (fun x => x + 100), true, some "c2"⟩
  | some _ => ⟨(List.range (min sz 25)).map (fun x => x + 200), false, none⟩

/-- A card due 2024-01-10 and ready for the client 2024-01-15 (UTC
midnight timestamps). -/
def cardC8 : CardMeta :=
  { developer_ids := some ["dev1"]
    original_due_date := some (.rangeObj (some 1704844800000) none)
    ready_for_client_date := some 1705276800000 }

/-- A card with a developer and a deadline but no resolvable completion
date. -/
def cardNoCompletion : CardMeta :=
  { developer_ids := some ["dev1"]
    original_due_date := some (.rangeObj (some 1704844800000) none) }

/-! ## Theorems -/

/-- Appending one element never returns the same list. -/
theorem append_singleton_ne (l : List α) (a : α) : l ++ [a] ≠ l := by
  intro h
  have hlen := congrArg List.length h
  simp at hlen

/-- C7: `extractProperty` returns, for a title property, the in-order
concatenation of all its text segments; for a multi-select property,
exactly the ordered list of its option names; and for a property absent
under both the identifier and the fallback name, the absent value for any
declared type — in every case returning (the embedded function is total,
mirroring the source's no-throw contract). -/
theorem claim_C7_extract_property (page : NotionPage) (pid : String)
    (nm : Option String) (p : NotionProperty) (segs : List TextSegment)
    (opts : List SelectOption) :
    (page.properties.lookup pid = some p → p.title = some segs → segs ≠ [] →
      extractProperty page pid "title" nm = .strV (joinSegments segs))
    ∧ (page.properties.lookup pid = some p → p.multi_select = some opts →
      extractProperty page pid "multi_select" nm = .listV (opts.map (·.name)))
    ∧ (∀ t : String, page.properties.lookup pid = none →
      (∀ n, nm = some n → page.properties.lookup n = none) →
      extractProperty page pid t nm = .nullV) := by
  refine ⟨?_, ?_, ?_⟩
  · intro hp ht hne
    simp [extractProperty, hp, ht, List.length_pos.mpr hne]
  · intro hp hm
    simp [extractProperty, hp, hm]
  · intro t h1 h2
    unfold extractProperty
    cases hnm : nm with
    | none => simp [h1, hnm]
    | some n => simp [h1, hnm, h2 n hnm]

/-- C7 witness: a concrete two-segment title concatenates, a concrete
multi-select lists its names in order, and an absent property of declared
type `date` extracts to the absent value. -/
theorem claim_C7_witness :
    extractProperty pageC7 "tt" "title" none = .strV "Hello World"
    ∧ extractProperty pageC7 "ms" "multi_select" none = .listV ["A", "B"]
    ∧ extractProperty pageC7 "zz" "date" (some "yy") = .nullV := by
  refine ⟨?_, ?_, ?_⟩
  · have h := (claim_C7_extract_property pageC7 "tt" none
      { title := some [⟨some "Hello "⟩, ⟨some "World"⟩] }
      [⟨some "Hello "⟩, ⟨some "World"⟩] []).1 (by decide) rfl (by decide)
    simpa [joinSegments] using h
  · have h := (claim_C7_extract_property pageC7 "ms" none
      { multi_select := some [⟨"A"⟩, ⟨"B"⟩] }
      [] [⟨"A"⟩, ⟨"B"⟩]).2.1 (by decide) rfl
    simpa using h
  · exact (claim_C7_extract_property pageC7 "zz" (some "yy")
      {} [] []).2.2 "date" (by decide) (by intro n hn; cases hn; decide)

/-- C3 counterexample: with an empty history and a card whose status is
absent, the claim requires the history collection to stay unchanged (no
prior record exists and no status is present), but `recordStatusHistory`
inserts a record with status "Unknown". -/
theorem claim_C3_counterexample :
    recordStatusHistory [] ⟨"card-1", none, 5⟩ 7 =
      [⟨"card-1", "Unknown", 5, 7, "notion"⟩]
    ∧ recordStatusHistory [] ⟨"card-1", none, 5⟩ 7 ≠ [] := by
  exact ⟨rfl, by decide⟩

/-- C3 (amended): on every upsert `recordStatusHistory` writes exactly one
new record iff no prior history record exists for the entity, or the new
status differs from the latest record's status — an absent status counts
as different from every stored status and is recorded as "Unknown"; in
every other case the history is left unchanged. -/
theorem claim_C3_amended_status_history (hist : List HistoryRec)
    (card : CardLite) (now : Int) :
    (recordStatusHistory hist card now ≠ hist ↔
      ∀ lh, latestHistory hist card.notion_id = some lh →
        card.status ≠ some lh.status)
    ∧ (recordStatusHistory hist card now = hist ∨
       recordStatusHistory hist card now = hist ++
         [⟨card.notion_id, statusOrUnknown card.status, card.updated_at, now,
           "notion"⟩]) := by
  cases hL : latestHistory hist card.notion_id with
  | none =>
    have hres : recordStatusHistory hist card now = hist ++
        [⟨card.notion_id, statusOrUnknown card.status, card.updated_at, now,
          "notion"⟩] := by
      unfold recordStatusHistory
      rw [hL]
    rw [hres]
    refine ⟨⟨fun _ lh hlh => ?_, fun _ => append_singleton_ne _ _⟩, Or.inr rfl⟩
    exact Option.noConfusion hlh
  | some lh =>
    by_cases hs : card.status = some lh.status
    · have hres : recordStatusHistory hist card now = hist := by
        unfold recordStatusHistory
        rw [hL]
        exact if_neg (not_not_intro hs)
      rw [hres]
      refine ⟨⟨fun hne => absurd rfl hne, fun hall => ?_⟩, Or.inl rfl⟩
      exact absurd hs (hall lh rfl)
    · have hres : recordStatusHistory hist card now = hist ++
          [⟨card.notion_id, statusOrUnknown card.status, card.updated_at, now,
            "notion"⟩] := by
        unfold recordStatusHistory
        rw [hL]
        exact if_pos hs
      rw [hres]
      refine ⟨⟨fun _ lh2 hlh2 => ?_, fun _ => append_singleton_ne _ _⟩,
        Or.inr rfl⟩
      cases hlh2
      exact hs

/-- C3 (amended) witness: with a latest record of status "A", an upsert
carrying the same status leaves the history unchanged. -/
theorem claim_C3_amended_witness :
    recordStatusHistory [⟨"card-1", "A", 1, 1, "notion"⟩]
      ⟨"card-1", some "A", 2⟩ 3 = [⟨"card-1", "A", 1, 1, "notion"⟩] := by
  have h := (claim_C3_amended_status_history
    [⟨"card-1", "A", 1, 1, "notion"⟩] ⟨"card-1", some "A", 2⟩ 3).1
  by_contra hne
  exact absurd rfl ((h.mp hne) ⟨"card-1", "A", 1, 1, "notion"⟩ (by decide))

/-- C9: upserting the same entity six times with the status sequence
[A, A, B, B, B, A] (distinct nonempty statuses, strictly increasing update
timestamps), starting from an empty history, yields exactly 3 history
records with status values [A, B, A] in order. -/
theorem claim_C9_status_dedup_sequence (a b : String) (ha : a ≠ "")
    (hb : b ≠ "") (hab : a ≠ b) :
    (upsertStatusSeq "c" []
      [(some a, 1), (some a, 2), (some b, 3), (some b, 4), (some b, 5),
       (some a, 6)]).map (fun h => h.status) = [a, b, a] := by
  simp [upsertStatusSeq, recordStatusHistory, latestHistory, statusOrUnknown,
    ha, hb, hab, Ne.symm hab]

/-- C9 witness: the sequence ["A", "A", "B", "B", "B", "A"] yields history
statuses ["A", "B", "A"]. -/
theorem claim_C9_witness :
    (upsertStatusSeq "c" []
      [(some "A", 1), (some "A", 2), (some "B", 3), (some "B", 4),
       (some "B", 5), (some "A", 6)]).map (fun h => h.status) =
      ["A", "B", "A"] :=
  claim_C9_status_dedup_sequence "A" "B" (by decide) (by decide) (by decide)

/-- C10: `fetchTimeDoctorWorklogs` never propagates an exception — every
error its body raises, including the distinguished range error it itself
constructs from an in-band "range too wide" message, is caught at its top
level and the function returns an empty array; the result is then
indistinguishable from a successful window with no work logged. -/
theorem claim_C10_fetch_swallows_errors (api : Int → Int → TDWorklogResponse)
    (f t : Int) (msg : String) :
    (exceptOk (fetchWorklogsAttempt (api f t)) = false →
      fetchTimeDoctorWorklogs api f t = []
      ∧ fetchTimeDoctorWorklogs api f t =
          fetchTimeDoctorWorklogs (fun _ _ => ⟨true, none, .direct []⟩) f t)
    ∧ ((api f t).ok = true → (api f t).error = some msg →
       strHasSub "range too wide" msg = true →
       fetchWorklogsAttempt (api f t) =
         .error ("Time Doctor API range error: " ++ msg)
       ∧ fetchTimeDoctorWorklogs api f t = []) := by
  constructor
  · intro hFail
    cases hA : fetchWorklogsAttempt (api f t) with
    | ok ws => rw [hA] at hFail; simp [exceptOk] at hFail
    | error e =>
      have hL : fetchTimeDoctorWorklogs api f t = [] := by
        simp [fetchTimeDoctorWorklogs, hA]
      have hR : fetchTimeDoctorWorklogs
          (fun _ _ => ⟨true, none, .direct []⟩) f t = [] := rfl
      exact ⟨hL, by rw [hL, hR]⟩
  · intro hok herr hsub
    have hA : fetchWorklogsAttempt (api f t) =
        .error ("Time Doctor API range error: " ++ msg) := by
      simp [fetchWorklogsAttempt, hok, herr, hsub]
    exact ⟨hA, by simp [fetchTimeDoctorWorklogs, hA]⟩

/-- C10 witness: the failing window of the C1 fixture server produces the
distinguished range error internally and still returns the empty list. -/
theorem claim_C10_witness :
    fetchWorklogsAttempt (apiC1 (8 * dayMs) (15 * dayMs)) =
      .error ("Time Doctor API range error: " ++ "range too wide")
    ∧ fetchTimeDoctorWorklogs apiC1 (8 * dayMs) (15 * dayMs) = [] :=
  (claim_C10_fetch_swallows_errors apiC1 (8 * dayMs) (15 * dayMs)
    "range too wide").2 (by decide) (by decide) (by decide)

/-- C1 (code-bug evidence): in a 30-day request where the second 7-day
window reports the "range too wide" error and its three 3-day sub-windows
would all succeed, the aggregate contains only the other windows' entries:
the failed window's fetch swallows its own range error and returns empty,
so the recovery handler in `syncTimeDoctorWorklogs` never runs and every
entry of that window is missing from the aggregate, where the claim (and
the source's own comment "throw it so we can handle chunking") promises
recovery. -/
theorem claim_C1_range_window_not_recovered :
    fetchWorklogsAttempt (apiC1 (8 * dayMs) (15 * dayMs)) =
      .error "Time Doctor API range error: range too wide"
    ∧ smallChunkLoop apiC1 (15 * dayMs) 3 (8 * dayMs) [] =
        [mapWorklogEntry (rawEntryTagged "691200000"),
         mapWorklogEntry (rawEntryTagged "950400000"),
         mapWorklogEntry (rawEntryTagged "1209600000")]
    ∧ syncWorklogsFetchAll apiC1 0 (30 * dayMs) =
        [mapWorklogEntry (rawEntryTagged "0"),
         mapWorklogEntry (rawEntryTagged "1382400000"),
         mapWorklogEntry (rawEntryTagged "2073600000"),
         mapWorklogEntry (rawEntryTagged "2678400000")]
    ∧ ∀ w ∈ smallChunkLoop apiC1 (15 * dayMs) 3 (8 * dayMs) [],
        w ∉ syncWorklogsFetchAll apiC1 0 (30 * dayMs) := by
  refine ⟨rfl, by decide, by decide, by decide⟩

/-- C4 counterexample: a pass whose single page succeeds but whose
finalization log write fails returns the log-write error to the caller —
the failure is not swallowed and the caller never receives the pass's
outcome. -/
theorem claim_C4_counterexample :
    syncProjectsRun (Except.ok [()]) (fun _ => Except.ok ())
        (fun _ => Except.error "log write failed") =
      Except.error "log write failed"
    ∧ ∀ log : SyncLogM,
        syncProjectsRun (Except.ok [()]) (fun _ => Except.ok ())
          (fun _ => Except.error "log write failed") ≠ Except.ok log := by
  have h1 : syncProjectsRun (Except.ok [()]) (fun _ => Except.ok ())
      (fun _ => Except.error "log write failed") =
        Except.error "log write failed" := rfl
  refine ⟨h1, fun log h => ?_⟩
  rw [h1] at h
  exact Except.noConfusion h

/-- C4 (amended): if writing the pass's finalization SyncRun record fails,
the error reaches the pass's own catch handler, which marks the record
failed, attempts a second write and re-throws — so the caller receives an
error (the log-write failure, or the second write's failure), not the
pass's outcome. -/
theorem claim_C4_amended_log_write_error_propagates (pages : List α)
    (step : α → Except String Unit) (insertLog : SyncLogM → Except String Unit)
    (e : String)
    (hIns : insertLog ⟨finalStatus (processPages pages step),
        (processPages pages step).processed, (processPages pages step).failed,
        (processPages pages step).error_count, none⟩ = .error e) :
    ∃ e2 : String, syncProjectsRun (.ok pages) step insertLog = .error e2 ∧
      (e2 = e ∨ insertLog ⟨"failed", (processPages pages step).processed,
        (processPages pages step).failed, (processPages pages step).error_count,
        some e⟩ = .error e2) := by
  simp only [syncProjectsRun]
  rw [hIns]
  show ∃ e2 : String,
    (match insertLog ⟨"failed", (processPages pages step).processed,
        (processPages pages step).failed, (processPages pages step).error_count,
        some e⟩ with
     | .ok _ => (Except.error e : Except String SyncLogM)
     | .error e2 => Except.error e2) = Except.error e2 ∧
      (e2 = e ∨ insertLog ⟨"failed", (processPages pages step).processed,
        (processPages pages step).failed, (processPages pages step).error_count,
        some e⟩ = .error e2)
  cases h2 : insertLog ⟨"failed", (processPages pages step).processed,
      (processPages pages step).failed, (processPages pages step).error_count,
      some e⟩ with
  | ok _ => exact ⟨e, rfl, Or.inl rfl⟩
  | error e2 => exact ⟨e2, rfl, Or.inr rfl⟩

/-- C4 (amended) witness: on the concrete single-page pass with a failing
log write, the run result is an error. -/
theorem claim_C4_amended_witness :
    ∃ e2 : String, syncProjectsRun (Except.ok [()]) (fun _ => Except.ok ())
        (fun _ => Except.error "log write failed") = Except.error e2 ∧
      (e2 = "log write failed" ∨
        (fun _ => Except.error "log write failed" : SyncLogM → Except String Unit)
            ⟨"failed", (processPages [()] (fun _ => Except.ok ())).processed,
              (processPages [()] (fun _ => Except.ok ())).failed,
              (processPages [()] (fun _ => Except.ok ())).error_count,
              some "log write failed"⟩ = Except.error e2) :=
  claim_C4_amended_log_write_error_propagates [()] (fun _ => Except.ok ())
    (fun _ => Except.error "log write failed") "log write failed" rfl

/-- Folding over the chunked list equals folding over the original list. -/
theorem foldl_listChunksGo (g : β → α → β) (n : Nat) (hn : n ≠ 0) :
    ∀ (fuel : Nat) (l : List α) (c0 : β), l.length ≤ fuel →
      (listChunksGo n fuel l).foldl (fun c batch => batch.foldl g c) c0 =
        l.foldl g c0 := by
  intro fuel
  induction fuel with
  | zero =>
    intro l c0 hl
    have : l = [] := List.eq_nil_of_length_eq_zero (Nat.le_zero.mp hl)
    subst this
    rfl
  | succ f ih =>
    intro l c0 hl
    cases l with
    | nil => rfl
    | cons x xs =>
      simp only [listChunksGo, if_neg hn, List.foldl_cons]
      rw [ih ((x :: xs).drop n) ((x :: xs).take n |>.foldl g c0) ?hlen]
      · rw [← List.foldl_append, List.take_append_drop, List.foldl_cons]
      case hlen =>
        simp only [List.length_drop, List.length_cons] at *
        omega

/-- The batched loop's counters equal a flat fold over the pages. -/
theorem processPages_eq_foldl (pages : List α) (step : α → Except String Unit) :
    processPages pages step = pages.foldl (stepCounters step) initCounters := by
  unfold processPages listChunks
  exact foldl_listChunksGo (stepCounters step) 50 (by decide) pages.length pages
    initCounters le_rfl

/-- The flat fold counts successes in `processed` and failures in `failed`
and `error_count`. -/
theorem foldl_stepCounters_counts (step : α → Except String Unit) :
    ∀ (pages : List α) (c : SyncCounters),
      (pages.foldl (stepCounters step) c).processed =
          c.processed + (pages.filter (fun p => !(stepFails step p))).length
      ∧ (pages.foldl (stepCounters step) c).failed =
          c.failed + (pages.filter (stepFails step)).length
      ∧ (pages.foldl (stepCounters step) c).error_count =
          c.error_count + (pages.filter (stepFails step)).length := by
  intro pages
  induction pages with
  | nil => intro c; simp
  | cons p ps ih =>
    intro c
    cases h : step p with
    | ok u =>
      have hstep : stepCounters step c p =
          ⟨c.processed + 1, c.failed, c.error_count⟩ := by
        simp [stepCounters, h]
      have hfail : stepFails step p = false := by simp [stepFails, h]
      obtain ⟨ih1, ih2, ih3⟩ := ih ⟨c.processed + 1, c.failed, c.error_count⟩
      refine ⟨?_, ?_, ?_⟩ <;>
        simp [List.foldl_cons, hstep, List.filter_cons, hfail, ih1, ih2, ih3] <;>
        omega
    | error e =>
      have hstep : stepCounters step c p =
          ⟨c.processed, c.failed + 1, c.error_count + 1⟩ := by
        simp [stepCounters, h]
      have hfail : stepFails step p = true := by simp [stepFails, h]
      obtain ⟨ih1, ih2, ih3⟩ :=
        ih ⟨c.processed, c.failed + 1, c.error_count + 1⟩
      refine ⟨?_, ?_, ?_⟩ <;>
        simp [List.foldl_cons, hstep, List.filter_cons, hfail, ih1, ih2, ih3] <;>
        omega

/-- C2: for a sync pass over N pages of which exactly k fail during
transform or persist, the finalized record has
`records_processed = N - k`, `records_failed = k`, and status "partial"
iff k > 0, else "success"; each page is handled in isolation, so a single
failure only increments the failure counters while the batch continues. -/
theorem claim_C2_partial_failure_accounting (pages : List α)
    (step : α → Except String Unit) :
    (processPages pages step).processed =
        pages.length - (pages.filter (stepFails step)).length
    ∧ (processPages pages step).failed = (pages.filter (stepFails step)).length
    ∧ (processPages pages step).error_count =
        (pages.filter (stepFails step)).length
    ∧ finalStatus (processPages pages step) =
        (if (pages.filter (stepFails step)).length = 0 then "success"
         else "partial") := by
  rw [processPages_eq_foldl]
  obtain ⟨h1, h2, h3⟩ := foldl_stepCounters_counts step pages initCounters
  have hsplit := pages.length_eq_length_filter_add (stepFails step)
  refine ⟨?_, ?_, ?_, ?_⟩
  · rw [h1]; simp only [initCounters]; omega
  · rw [h2]; simp [initCounters]
  · rw [h3]; simp [initCounters]
  · unfold finalStatus
    rw [h2]
    simp only [initCounters]
    by_cases hk : (pages.filter (stepFails step)).length = 0
    · simp [hk]
    · simp [hk, Nat.pos_of_ne_zero hk]

/-- C8: the average-days-late computation counts an entity only when its
resolved completion date strictly exceeds its resolved deadline, with the
value the whole-day difference; entities lacking a resolvable deadline or
completion date contribute nothing to the average (they are excluded, not
zero); and the completion date resolves as ready-for-client date, else
done date, else deployment date — first present wins. -/
theorem claim_C8_days_late (m : CardMeta) (dev : String) (d : Int)
    (t t2 : Int) (rest : List CardMeta) :
    (daysLateEntry m = some (dev, d) →
      ∃ dl cd, resolveDeadline m = some dl ∧ resolveCompletion m = some cd ∧
        dl < cd ∧ d = (cd - dl).fdiv dayMs)
    ∧ ((resolveDeadline m = none ∨ resolveCompletion m = none) →
        daysLateEntry m = none)
    ∧ (m.ready_for_client_date = some t → resolveCompletion m = some t)
    ∧ (m.ready_for_client_date = none → m.done_date = some t2 →
        resolveCompletion m = some t2)
    ∧ (m.ready_for_client_date = none → m.done_date = none →
        resolveCompletion m = m.deployment_date)
    ∧ (daysLateEntry m = none →
        avgDaysLate (m :: rest) dev = avgDaysLate rest dev) := by
  refine ⟨?_, ?_, ?_, ?_, ?_, ?_⟩
  · intro h
    unfold daysLateEntry at h
    cases hpd : primaryDeveloper m with
    | none => rw [hpd] at h; simp at h
    | some dev0 =>
      rw [hpd] at h
      cases hdl : resolveDeadline m with
      | none => rw [hdl] at h; simp at h
      | some dl =>
        rw [hdl] at h
        cases hcd : resolveCompletion m with
        | none => rw [hcd] at h; simp at h
        | some cd =>
          rw [hcd] at h
          have h2 : (if dl < cd then some (dev0, (cd - dl).fdiv dayMs)
              else none) = some (dev, d) := h
          by_cases hlt : dl < cd
          · rw [if_pos hlt] at h2
            refine ⟨dl, cd, rfl, rfl, hlt, ?_⟩
            cases h2
            rfl
          · rw [if_neg hlt] at h2
            exact Option.noConfusion h2
  · intro h12
    unfold daysLateEntry
    cases hpd : primaryDeveloper m with
    | none => rfl
    | some dev0 =>
      rcases h12 with hdl | hcd
      · rw [hdl]
      · cases hdl : resolveDeadline m with
        | none => rfl
        | some dl => rw [hcd]
  · intro h
    simp [resolveCompletion, h]
  · intro h1 h2
    simp [resolveCompletion, h1, h2]
  · intro h1 h2
    simp [resolveCompletion, h1, h2]
  · intro h
    unfold avgDaysLate daysLateValues
    rw [List.filterMap_cons_none h]

/-- C8 witness: deadline 2024-01-10 and ready-for-client 2024-01-15 give a
counted entry of 5 whole days for the assignee; a card lacking every
completion date contributes nothing to the average. -/
theorem claim_C8_witness :
    daysLateEntry cardC8 = some ("dev1", 5)
    ∧ (∃ dl cd, resolveDeadline cardC8 = some dl ∧
        resolveCompletion cardC8 = some cd ∧ dl < cd ∧
        (5 : Int) = (cd - dl).fdiv dayMs)
    ∧ avgDaysLate [cardNoCompletion, cardC8] "dev1" =
        avgDaysLate [cardC8] "dev1" := by
  refine ⟨by decide, ?_, ?_⟩
  · exact (claim_C8_days_late cardC8 "dev1" 5 0 0 []).1 (by decide)
  · exact (claim_C8_days_late cardNoCompletion "dev1" 0 0 0
      [cardC8]).2.2.2.2.2 (by decide)

/-- Updating an existing key or appending a fresh one preserves
duplicate-free keys of the JS-Map model. -/
theorem mapSet_keys_nodup (m : List (String × β)) (k : String) (v : β)
    (h : (m.map Prod.fst).Nodup) : ((mapSet m k v).map Prod.fst).Nodup := by
  unfold mapSet
  by_cases hk : m.any (fun p => p.1 = k)
  · rw [if_pos hk]
    have hmap : (m.map (fun p => if p.1 = k then (k, v) else p)).map Prod.fst =
        m.map Prod.fst := by
      rw [List.map_map]
      apply List.map_congr_left
      intro p _
      by_cases hp : p.1 = k
      · simp [hp]
      · simp [hp]
    rw [hmap]
    exact h
  · rw [if_neg hk]
    rw [List.map_append]
    refine List.nodup_append.2 ⟨h, List.nodup_singleton k, ?_⟩
    intro a ha hb
    simp only [List.map_cons, List.map_nil, List.mem_singleton] at hb
    subst hb
    apply hk
    rw [List.any_eq_true]
    obtain ⟨p, hp, hpa⟩ := List.mem_map.1 ha
    exact ⟨p, hp, by simp [hpa]⟩

/-- The email attempt preserves duplicate-free keys. -/
theorem matchUserEmail_keys_nodup (byEmail : List (String × TeamMember))
    (mm : List (String × String)) (u : TDUser)
    (h : (mm.map Prod.fst).Nodup) :
    ((matchUserEmail byEmail mm u).map Prod.fst).Nodup := by
  unfold matchUserEmail
  split
  · split
    · split
      · split
        · split
          · exact mapSet_keys_nodup _ _ _ h
          · exact h
        · exact h
      · exact h
    · exact h
  · exact h

/-- The whole per-candidate body preserves duplicate-free keys. -/
theorem matchOneUser_keys_nodup (byEmail byName : List (String × TeamMember))
    (mm : List (String × String)) (u : TDUser)
    (h : (mm.map Prod.fst).Nodup) :
    ((matchOneUser byEmail byName mm u).map Prod.fst).Nodup := by
  have h1 := matchUserEmail_keys_nodup byEmail mm u h
  simp only [matchOneUser]
  repeat' split
  all_goals first
    | exact mapSet_keys_nodup _ _ _ h1
    | exact h1

/-- C6: identity matching resolves a candidate by exact case-normalized
email first — a candidate whose email hits one member (with a usable
`notion_id`) resolves to that member even when its name hits a different
member; the name index is consulted only when the email attempt records
nothing; and the match map never holds two entries for one candidate id. -/
theorem claim_C6_match_priority (u : TDUser) (ms : List TeamMember)
    (e nid nid2 : String) (mem mem2 : TeamMember)
    (tdUsers : List TDUser) :
    ((u.email = some e → e ≠ "" →
      mapGet (teamMemberByEmail ms) (normKey e) = some mem →
      mem.notion_id = some nid → nid ≠ "" →
      matchTimeDoctorUsers [u] ms = [(u.id, nid)]))
    ∧ ((u.email = none ∨ ∃ e0, u.email = some e0 ∧ e0 ≠ "" ∧
          mapGet (teamMemberByEmail ms) (normKey e0) = none) →
       u.name ≠ "" →
       mapGet (teamMemberByName ms) (normKey u.name) = some mem2 →
       mem2.notion_id = some nid2 → nid2 ≠ "" →
       matchTimeDoctorUsers [u] ms = [(u.id, nid2)])
    ∧ ((matchTimeDoctorUsers tdUsers ms).map Prod.fst).Nodup := by
  refine ⟨?_, ?_, ?_⟩
  · intro he he' hget hnid hnid'
    have hm1 : matchUserEmail (teamMemberByEmail ms) [] u = [(u.id, nid)] := by
      simp [matchUserEmail, he, he', hget, hnid, hnid', mapSet]
    simp [matchTimeDoctorUsers, matchOneUser, hm1, mapHas]
  · intro hmiss hnm hgetn hnid2 hnid2'
    have hm1 : matchUserEmail (teamMemberByEmail ms) [] u = [] := by
      rcases hmiss with hnone | ⟨e0, he0, he0', hget0⟩
      · simp [matchUserEmail, hnone]
      · simp [matchUserEmail, he0, he0', hget0]
    simp [matchTimeDoctorUsers, matchOneUser, hm1, mapHas, hnm, hgetn, hnid2,
      hnid2', mapSet]
  · unfold matchTimeDoctorUsers
    have hgen : ∀ (us : List TDUser) (mm : List (String × String)),
        (mm.map Prod.fst).Nodup →
        ((us.foldl (matchOneUser (teamMemberByEmail ms)
          (teamMemberByName ms)) mm).map Prod.fst).Nodup := by
      intro us
      induction us with
      | nil => intro mm h; exact h
      | cons v vs ih =>
        intro mm h
        exact ih _ (matchOneUser_keys_nodup _ _ mm v h)
    exact hgen tdUsers [] (by simp)

/-- C6 witness: the candidate whose email matches one member and whose
name matches a different member resolves to the email match. -/
theorem claim_C6_witness :
    matchTimeDoctorUsers [tdUserC6] [memberNameC6, memberEmailC6] =
      [("td1", "n1")] :=
  (claim_C6_match_priority tdUserC6 [memberNameC6, memberEmailC6]
    "X@Y.com" "n1" "" memberEmailC6 memberEmailC6 []).1 rfl (by decide)
    (by decide) rfl (by decide)

/-- Every recursive step of the capped fetch keeps the accumulator within
the cap and issues requests only while under it, with page size
min(remaining, 100). -/
theorem fetchAllPagesGo_cap (query : Option String → Nat → QueryResponse α)
    (l : Nat) (hl : l ≠ 0) :
    ∀ (fuel : Nat) (cursor : Option String) (acc : List α)
      (reqs : List (Nat × Nat)),
      acc.length < l →
      (∀ pr ∈ reqs, pr.2 = min (l - pr.1) 100 ∧ pr.1 < l) →
      (fetchAllPagesGo query (some l) fuel cursor acc reqs).1.length ≤ l ∧
      ∀ pr ∈ (fetchAllPagesGo query (some l) fuel cursor acc reqs).2,
        pr.2 = min (l - pr.1) 100 ∧ pr.1 < l := by
  intro fuel
  induction fuel with
  | zero =>
    intro cursor acc reqs hacc hreqs
    exact ⟨Nat.le_of_lt hacc, hreqs⟩
  | succ f ih =>
    intro cursor acc reqs hacc hreqs
    have hr : l - acc.length ≠ 0 := by omega
    have hlim : limTruthy (some l) = true := by simp [limTruthy, hl]
    simp only [fetchAllPagesGo, hlim, Option.getD_some, if_true, hr, ne_eq,
      not_false_eq_true, true_and, and_true]
    set ps := (if l - acc.length < 100 then l - acc.length else 100) with hps
    set acc2 := acc ++ List.take (l - acc.length) (query cursor ps).results
      with hacc2
    set reqs2 := reqs ++ [(acc.length, ps)] with hreqs2
    have hlen2 : acc2.length ≤ l := by
      rw [hacc2]
      simp only [List.length_append, List.length_take]
      omega
    have hreqsP : ∀ pr ∈ reqs2, pr.2 = min (l - pr.1) 100 ∧ pr.1 < l := by
      intro pr hpr
      rw [hreqs2] at hpr
      rcases List.mem_append.1 hpr with hin | hnew
      · exact hreqs pr hin
      · rw [List.mem_singleton] at hnew
        subst hnew
        refine ⟨?_, hacc⟩
        by_cases h100 : l - acc.length < 100
        · simp only [hps, if_pos h100]
          omega
        · simp only [hps, if_neg h100]
          omega
    by_cases hbrk : l ≤ acc2.length
    · rw [if_pos hbrk]
      exact ⟨hlen2, hreqsP⟩
    · rw [if_neg hbrk]
      cases hcur : (if (query cursor ps).has_more = true ∧
          truthyStr (query cursor ps).next_cursor = true then
            (query cursor ps).next_cursor
          else none) with
      | none => exact ⟨hlen2, hreqsP⟩
      | some c =>
        have hred : (match some c with
            | none => (acc2, reqs2)
            | some c => if ¬ acc2.length < l then (acc2, reqs2)
                else fetchAllPagesGo query (some l) f (some c) acc2 reqs2)
              = (if ¬ acc2.length < l then (acc2, reqs2)
                 else fetchAllPagesGo query (some l) f (some c) acc2 reqs2) := rfl
        rw [hred, if_neg (not_not_intro (by omega : acc2.length < l))]
        exact ih (some c) acc2 reqs2 (by omega) hreqsP

/-- C5: with a result cap `l`, `fetchAllPages` returns at most `l` items;
every page request it issues happens with fewer than `l` items
accumulated (fetching stops as soon as the cap is reached) and asks for
exactly the lesser of the external max page size (100) and the remaining
cap — the final page's surplus being truncated mid-page. -/
theorem claim_C5_result_cap (query : Option String → Nat → QueryResponse α)
    (fuel l : Nat) (hl : l ≠ 0) :
    (fetchAllPages query (some l) fuel).1.length ≤ l ∧
    ∀ pr ∈ (fetchAllPages query (some l) fuel).2,
      pr.2 = min (l - pr.1) 100 ∧ pr.1 < l := by
  unfold fetchAllPages
  exact fetchAllPagesGo_cap query l hl fuel none [] []
    (by simpa using Nat.pos_of_ne_zero hl) (by simp)

/-- C5 witness: the three-page fixture server under a cap of 60 yields at
most 60 items and law-abiding page requests. -/
theorem claim_C5_witness :
    (fetchAllPages srvC5 (some 60) 10).1.length ≤ 60 ∧
    ∀ pr ∈ (fetchAllPages srvC5 (some 60) 10).2,
      pr.2 = min (60 - pr.1) 100 ∧ pr.1 < 60 :=
  claim_C5_result_cap srvC5 10 60 (by decide)

end SyncBI
